import Mathlib

/-!
Verification of the mdscraper repository against its specification.

The canonical code is the latest `MdScraper` class revision
(`src/mdscraper/core/scraper.py` together with `src/mdscraper/core/utils.py`);
the repository also contains superseded revisions (`src/mdscraper.py`,
`src/scraper.py`, `src/utils.py`) which the spec directs us to treat as
non-canonical.  Python standard-library collaborators (str methods, re.sub,
fnmatch, urllib.parse, html.unescape, os.path) are modelled explicitly below
on `List Char`, so that every definition is executable by the kernel.
-/

namespace Mdscraper

/-! ## Models of Python string primitives -/

/-- The whitespace characters recognised by Python's `str.strip` / `\s`
(restricted to the ASCII ones that occur in practice). -/
def wsChar (c : Char) : Bool :=
  c == ' ' || c == '\t' || c == '\n' || c == '\r'

/-- Python `str.strip()`: drop leading and trailing whitespace. -/
def pyStripL (l : List Char) : List Char :=
  ((l.dropWhile wsChar).reverse.dropWhile wsChar).reverse

/-- Python `str.strip()` on `String`. -/
def pyStrip (s : String) : String :=
  ⟨pyStripL s.data⟩

/-- Auxiliary for `pySplitCh`: split a character list at every occurrence of
the separator (Python `str.split(sep)` semantics: no collapsing, keeps empty
pieces). -/
def splitChAux (sep : Char) (acc : List Char) : List Char → List (List Char)
  | [] => [acc.reverse]
  | x :: xs =>
    if x = sep then acc.reverse :: splitChAux sep [] xs
    else splitChAux sep (x :: acc) xs

/-- Python `str.split(sep)` for a one-character separator. -/
def pySplitCh (sep : Char) (s : String) : List String :=
  (splitChAux sep [] s.data).map (fun l => ⟨l⟩)

/-- Python `'\n'.join(lines)` (also used for other separators). -/
def joinCh (sep : Char) : List String → String
  | [] => ""
  | [l] => l
  | l :: ls => l ++ ⟨[sep]⟩ ++ joinCh sep ls

/-- Python `str.startswith`. -/
def pyStartsWith (p s : String) : Bool :=
  p.data.isPrefixOf s.data

/-- Parse a digit string (all characters decimal digits, nonempty). -/
def digitsVal (l : List Char) : Option Nat :=
  if l ≠ [] ∧ l.all Char.isDigit then
    some (l.foldl (fun a c => a * 10 + (c.toNat - 48)) 0)
  else none

/-- Model of Python `int(s)` on an already-stripped string: optional sign
followed by decimal digits; `none` models a raised `ValueError`. -/
def pyInt (s : String) : Option Int :=
  match s.data with
  | '-' :: rest => (digitsVal rest).map (fun n => -(n : Int))
  | '+' :: rest => (digitsVal rest).map (fun n => (n : Int))
  | l => (digitsVal l).map (fun n => (n : Int))

/-- Does `pl` occur as a contiguous sublist of `l`?  Model of Python's
`pat in s` / the occurrence test underlying `str.replace`. -/
def hasOcc (pl : List Char) : List Char → Bool
  | [] => pl.isPrefixOf []
  | c :: rest => pl.isPrefixOf (c :: rest) || hasOcc pl rest

/-- Auxiliary for `pyRemoveAll`: remove every (leftmost-first, non-overlapping)
occurrence of `pl`.  The fuel argument makes the recursion structural; any
fuel `≥` the length of the list gives the untruncated behaviour. -/
def removeAllAux (pl : List Char) : Nat → List Char → List Char
  | _, [] => []
  | 0, l => l
  | fuel + 1, c :: rest =>
    if pl.isPrefixOf (c :: rest) then removeAllAux pl fuel ((c :: rest).drop pl.length)
    else c :: removeAllAux pl fuel rest

/-- Model of Python `s.replace(p, '')`: delete all occurrences of `p` in `s`,
scanning left to right.  For an empty pattern Python's result (with an empty
replacement) is the original string. -/
def pyRemoveAll (p s : String) : String :=
  if p = "" then s else ⟨removeAllAux p.data s.data.length s.data⟩

/-- Split a list at the first occurrence of `pl`, returning the pieces before
and after it; `none` when `pl` (assumed nonempty) does not occur. -/
def splitFirst (pl : List Char) : List Char → Option (List Char × List Char)
  | [] => none
  | c :: rest =>
    if pl.isPrefixOf (c :: rest) then some ([], (c :: rest).drop pl.length)
    else (splitFirst pl rest).map (fun q => (c :: q.1, q.2))

/-- Auxiliary for `fnmatchB`: shell glob matching with `*` and `?`, fuelled to
keep the recursion structural (fuel `≥ pattern.length + name.length + 1`
suffices). -/
def globAux : Nat → List Char → List Char → Bool
  | 0, _, _ => false
  | _ + 1, [], [] => true
  | _ + 1, [], _ :: _ => false
  | fuel + 1, '*' :: ps, s =>
    globAux fuel ps s ||
      (match s with
       | [] => false
       | _ :: s2 => globAux fuel ('*' :: ps) s2)
  | _ + 1, _ :: _, [] => false
  | fuel + 1, p :: ps, c :: s => (p == '?' || p == c) && globAux fuel ps s

/-- Model of Python `fnmatch.fnmatch(name, pat)` for patterns built from
literal characters and the wildcards `*` and `?` (character classes `[...]`
are not used by this repository). -/
def fnmatchB (name pat : String) : Bool :=
  globAux (pat.data.length + name.data.length + 1) pat.data name.data

/-- Auxiliary for `collapseNewlines`: `pending` counts the newline run read so
far; a finished run of `k` newlines is emitted as `2` newlines when `k ≥ 3`
and verbatim otherwise.  This models `re.sub(r'\n{3,}', '\n\n', s)`. -/
def emitRun (k : Nat) : List Char :=
  List.replicate (if 3 ≤ k then 2 else k) '\n'

/-- Auxiliary for `collapseNewlines` (see `emitRun`). -/
def collapseGo (pending : Nat) : List Char → List Char
  | [] => emitRun pending
  | c :: cs =>
    if c = '\n' then collapseGo (pending + 1) cs
    else emitRun pending ++ c :: collapseGo 0 cs

/-- The newline-collapse step of `html_to_markdown`
(`markdown = re.sub(r'\n{3,}', '\n\n', markdown)`): every run of 3 or more
consecutive newline characters becomes exactly 2. -/
def collapseNewlines (s : String) : String :=
  ⟨collapseGo 0 s.data⟩

/-- Auxiliary for `collapseWs`: `inRun` records whether a whitespace run is
open; each maximal run is emitted as one space.  Models
`re.sub(r'\s+', ' ', s)`. -/
def cwGo (inRun : Bool) : List Char → List Char
  | [] => if inRun then [' '] else []
  | c :: cs =>
    if wsChar c then cwGo true cs
    else (if inRun then [' '] else []) ++ c :: cwGo false cs

/-- Model of `re.sub(r'\s+', ' ', s)`: collapse every whitespace run to a
single space. -/
def collapseWs (s : String) : String :=
  ⟨cwGo false s.data⟩

/-- Entity table for `pyUnescape` (the named and numeric entities relevant
here; Python's `html.unescape` knows the full HTML5 table). -/
def entVal : List Char → Option (List Char)
  | ['a', 'm', 'p'] => some ['&']
  | ['l', 't'] => some ['<']
  | ['g', 't'] => some ['>']
  | ['q', 'u', 'o', 't'] => some ['"']
  | '#' :: ds => (digitsVal ds).map (fun n => [Char.ofNat n])
  | _ => none

/-- Auxiliary for `pyUnescape`, fuelled to keep the recursion structural
(fuel `≥` length suffices). -/
def unescapeAux : Nat → List Char → List Char
  | _, [] => []
  | 0, l => l
  | fuel + 1, c :: rest =>
    if c = '&' then
      let ent := rest.takeWhile (fun d => d ≠ ';')
      let rem := rest.dropWhile (fun d => d ≠ ';')
      match rem, entVal ent with
      | _ :: after, some repl => repl ++ unescapeAux fuel after
      | _, _ => c :: unescapeAux fuel rest
    else c :: unescapeAux fuel rest

/-- Model of Python `html.unescape`: a single left-to-right pass decoding
`&...;` entities. -/
def pyUnescape (s : String) : String :=
  ⟨unescapeAux s.data.length s.data⟩

/-! ## Models of `urllib.parse` -/

/-- The path component of a URL as computed by `urllib.parse.urlparse(url).path`,
modelled for the URL shapes this repository handles: an optional
`scheme://host` part, then the path, with `?query` and `#fragment` stripped. -/
def urlPath (url : String) : String :=
  let u := (url.data.takeWhile (fun c => c ≠ '#')).takeWhile (fun c => c ≠ '?')
  match splitFirst [':', '/', '/'] u with
  | some q =>
    if q.1.all (fun c => c ≠ '/') then ⟨q.2.dropWhile (fun c => c ≠ '/')⟩ else ⟨u⟩
  | none => ⟨u⟩

/-- `f'{scheme}://{hostname}'` as computed by `process_site_url`:
`urlparse` lowercases the hostname and drops any port. -/
def siteRootOf (url : String) : String :=
  match splitFirst [':', '/', '/'] url.data with
  | none => "://None"
  | some q =>
    ⟨q.1⟩ ++ "://" ++ ⟨((q.2.takeWhile (fun c => c ≠ '/')).takeWhile (fun c => c ≠ ':')).map Char.toLower⟩

/-! ## The parsed-HTML data model

A document is the tree produced by the parsing collaborator (BeautifulSoup).
Only the attributes this repository ever reads are modelled: `id`, the
space-separated `class` list, and `href`.  A parsed document (the "soup")
is the list of top-level nodes; `find`/`find_all` search descendants in
document order (preorder), and a found `Tag` is always truthy in bs4, so
found-vs-`None` is modelled by `Option`. -/

inductive Node where
  | text : String → Node
  | elem : String → Option String → List String → Option String → List Node → Node

/-- The child list of a node (text nodes have none). -/
def Node.children : Node → List Node
  | .text _ => []
  | .elem _ _ _ _ cs => cs

/-- Is this node a tag with the given name? -/
def Node.tagIs (n : Node) (t : String) : Bool :=
  match n with
  | .text _ => false
  | .elem tg _ _ _ _ => tg == t

/-- The `id` attribute of a node. -/
def Node.idAttr : Node → Option String
  | .text _ => none
  | .elem _ i _ _ _ => i

/-- The space-separated `class` attribute values of a node. -/
def Node.classes : Node → List String
  | .text _ => []
  | .elem _ _ cl _ _ => cl

/-- The `href` attribute of a node (`anchor['href']` raises `KeyError` when
this is `none`). -/
def Node.href : Node → Option String
  | .text _ => none
  | .elem _ _ _ h _ => h

mutual

/-- bs4 `get_text()`: concatenation of all string descendants. -/
def Node.getText : Node → String
  | .text s => s
  | .elem _ _ _ _ cs => getTextList cs

/-- `Node.getText` over a child list. -/
def getTextList : List Node → String
  | [] => ""
  | c :: cs => c.getText ++ getTextList cs

end

mutual

/-- bs4 `get_text(strip=True) == ''`: every string descendant is
whitespace-only. -/
def Node.allBlank : Node → Bool
  | .text s => s.data.all wsChar
  | .elem _ _ _ _ cs => allBlankList cs

/-- `Node.allBlank` over a child list. -/
def allBlankList : List Node → Bool
  | [] => true
  | c :: cs => c.allBlank && allBlankList cs

end

mutual

/-- bs4 `tag.find_all(...)` filtered by a predicate: all matching
descendants of `n`, in document order. -/
def findAllNode (p : Node → Bool) : Node → List Node
  | .text _ => []
  | .elem _ _ _ _ cs => findAllList p cs

/-- bs4 `find_all` over a forest (used with the whole soup): matching nodes
of the forest and their descendants, in document order. -/
def findAllList (p : Node → Bool) : List Node → List Node
  | [] => []
  | c :: cs => (if p c then [c] else []) ++ findAllNode p c ++ findAllList p cs

end

/-- The Python exceptions that the verified code paths can raise. -/
inductive PyErr where
  | keyError : PyErr
  | attributeError : PyErr
  | valueError : PyErr
  deriving DecidableEq

/-- Model of the CSS selectors handled by `content.select(selector)` as this
repository uses them: a tag name, a class (`.name`), or an id (`#name`). -/
inductive Selector where
  | tagSel : String → Selector
  | classSel : String → Selector
  | idSel : String → Selector

/-- Does a node match a selector?  (Text nodes never do.) -/
def selMatches (sel : Selector) (n : Node) : Bool :=
  match sel with
  | .tagSel t => n.tagIs t
  | .classSel c => n.classes.contains c
  | .idSel i => n.idAttr == some i

/-! ## Options

The options dictionary of `MdScraper`, restricted to the fields the verified
code paths read.  `content` is the custom content-name list (`options.get('content')`,
absent modelled as `[]`, which is also falsy in Python). -/

structure Options where
  no_images : Bool
  no_links : Bool
  root_url : String
  content : List String
  default_content_names : List String
  exclude_pages : Option (List String)
  exclude_selectors : Option (List Selector)
  extra_heading_space : Option String
  prepend_source_link : Bool
  output : String
  outdir : String

/-- The `DefaultOptions` of `MdScraper`, for the modelled fields. -/
def defaultOptions : Options :=
  { no_images := false
    no_links := false
    root_url := ""
    content := []
    default_content_names :=
      ["article_content", "content", "article-content", "article", "main-content",
       "main", "post-content", "entry-content", "blog-content", "body-content"]
    exclude_pages := none
    exclude_selectors := none
    extra_heading_space := none
    prepend_source_link := false
    output := "%TITLE"
    outdir := "" }

/-! ## `MdScraper.get_relative_url_path` (source lines 217-245) -/

/-- `get_relative_url_path`: when `root_url` is set, compute the path
components and `url_path.replace(root_path, '')`; return the replaced path
when the replacement changed it, the original url otherwise. -/
def get_relative_url_path (opts : Options) (url : String) : String :=
  if opts.root_url ≠ "" then
    let root_path := urlPath opts.root_url
    let url_path := urlPath url
    let new_url := pyRemoveAll root_path url_path
    if new_url ≠ url_path then new_url else url
  else url

/-! ## The content-editor operations (source lines 478-562) -/

mutual

/-- First phase of `remove_images`: `for img in content.find_all('img'): img.decompose()` —
delete every `img` subtree below the node. -/
def Node.removeImgs : Node → Node
  | .text s => .text s
  | .elem t i cl h cs => .elem t i cl h (removeImgsList cs)

/-- `Node.removeImgs` over a child list. -/
def removeImgsList : List Node → List Node
  | [] => []
  | c :: cs =>
    if c.tagIs "img" then removeImgsList cs
    else c.removeImgs :: removeImgsList cs

end

mutual

/-- Second phase of `remove_images`: delete every `p` below the node whose
`get_text(strip=True)` is empty. -/
def Node.removeEmptyPs : Node → Node
  | .text s => .text s
  | .elem t i cl h cs => .elem t i cl h (removeEmptyPsList cs)

/-- `Node.removeEmptyPs` over a child list. -/
def removeEmptyPsList : List Node → List Node
  | [] => []
  | c :: cs =>
    if c.tagIs "p" && c.allBlank then removeEmptyPsList cs
    else c.removeEmptyPs :: removeEmptyPsList cs

end

/-- `MdScraper.remove_images` (lines 478-505): remove every image, then every
paragraph left without non-whitespace text. -/
def remove_images (content : Node) : Node :=
  content.removeImgs.removeEmptyPs

mutual

/-- `MdScraper.remove_links` (lines 507-527): replace every anchor below the
node by a plain string node carrying its `get_text()`. -/
def Node.removeLinks : Node → Node
  | .text s => .text s
  | .elem t i cl h cs => .elem t i cl h (removeLinksList cs)

/-- `Node.removeLinks` over a child list. -/
def removeLinksList : List Node → List Node
  | [] => []
  | c :: cs =>
    if c.tagIs "a" then .text c.getText :: removeLinksList cs
    else c.removeLinks :: removeLinksList cs

end

/-- `MdScraper.remove_links`, at the content node (bs4 `find_all` only
searches descendants, so the node itself is never replaced). -/
def remove_links (content : Node) : Node :=
  content.removeLinks

mutual

/-- Body of `make_urls_relative`: rewrite `anchor['href']` to
`get_relative_url_path(href)` for every anchor below the node; an anchor
without an `href` attribute raises `KeyError`. -/
def Node.relink (opts : Options) : Node → Except PyErr Node
  | .text s => .ok (.text s)
  | .elem t i cl h cs =>
    match relinkList opts cs with
    | .error e => .error e
    | .ok cs2 =>
      if t == "a" then
        match h with
        | none => .error .keyError
        | some u => .ok (.elem t i cl (some (get_relative_url_path opts u)) cs2)
      else .ok (.elem t i cl h cs2)

/-- `Node.relink` over a child list (document order; the first missing
`href` wins, as in the Python loop). -/
def relinkList (opts : Options) : List Node → Except PyErr (List Node)
  | [] => .ok []
  | c :: cs =>
    match c.relink opts with
    | .error e => .error e
    | .ok c2 =>
      match relinkList opts cs with
      | .error e => .error e
      | .ok cs2 => .ok (c2 :: cs2)

end

/-- `MdScraper.make_urls_relative` (lines 547-562): a no-op unless `root_url`
is set; otherwise rewrites the `href` of every anchor below the content node. -/
def make_urls_relative (opts : Options) (content : Node) : Except PyErr Node :=
  if opts.root_url ≠ "" then
    match content with
    | .text s => .ok (.text s)
    | .elem t i cl h cs => (relinkList opts cs).map (fun cs2 => .elem t i cl h cs2)
  else .ok content

mutual

/-- One selector pass of `process_exclude_selectors`: delete every matching
element below the node (`content.select(selector)` plus `decompose()`). -/
def Node.removeSel (sel : Selector) : Node → Node
  | .text s => .text s
  | .elem t i cl h cs => .elem t i cl h (removeSelList sel cs)

/-- `Node.removeSel` over a child list. -/
def removeSelList (sel : Selector) : List Node → List Node
  | [] => []
  | c :: cs =>
    if selMatches sel c then removeSelList sel cs
    else c.removeSel sel :: removeSelList sel cs

end

/-- `MdScraper.process_exclude_selectors` (lines 529-545): apply the
configured selectors in list order. -/
def process_exclude_selectors (opts : Options) (content : Node) : Node :=
  (opts.exclude_selectors.getD []).foldl (fun c sel => c.removeSel sel) content

/-! ## The content locator (source lines 564-664) -/

/-- Is this node a `div`? -/
def isDiv (n : Node) : Bool :=
  n.tagIs "div"

/-- `len(x.get_text())`, the sort key of the largest-div fallback. -/
def textLen (n : Node) : Nat :=
  n.getText.length

/-- The `attr` argument of `find_content_by_div_attr`; the source raises
`NameError` for any other value and is only called with these two. -/
inductive DivAttr where
  | id : DivAttr
  | cls : DivAttr

/-- The first node of the soup satisfying `p`, in document order
(bs4 `soup.find(...)`). -/
def soupFind (p : Node → Bool) (soup : List Node) : Option Node :=
  (findAllList p soup).head?

/-- The div-against-one-name test of `find_content_by_div_attr`: for
`attr='class'`, `soup.find('div', class_=name)` matches when any
space-separated class equals the name; for `attr='id'`, the explicit loop
over `soup.find_all('div')` takes the first div whose `id` equals the name
(the preceding `soup.find('div', id_=name)` call is subsumed by that loop). -/
def divAttrMatch (attr : DivAttr) (name : String) (n : Node) : Bool :=
  match attr with
  | .id => isDiv n && n.idAttr == some name
  | .cls => isDiv n && n.classes.contains name

/-- `MdScraper.find_content_by_div_attr` (lines 564-597): try each name in
list order, returning the first div found. -/
def find_content_by_div_attr (soup : List Node) (attr : DivAttr) : List String → Option Node
  | [] => none
  | name :: rest =>
    match soupFind (divAttrMatch attr name) soup with
    | some c => some c
    | none => find_content_by_div_attr soup attr rest

/-- One step of Python's stable insertion into a descending-by-key list:
an element moves ahead only of strictly smaller keys, so equal keys keep
their original relative order. -/
def insertDescByTextLen (d : Node) : List Node → List Node
  | [] => [d]
  | x :: xs =>
    if textLen x < textLen d then d :: x :: xs
    else x :: insertDescByTextLen d xs

/-- Model of `sorted(divs, key=lambda x: len(x.get_text()), reverse=True)`:
Python's sort is stable, and a stable descending sort is computed by
inserting the elements left to right, each behind every element of
greater-or-equal key. -/
def pySortDescByTextLen (l : List Node) : List Node :=
  l.foldl (fun acc d => insertDescByTextLen d acc) []

/-- `MdScraper.find_content_container` (lines 599-664): the detection
cascade — custom names by div id then div class, default names by div id
then div class, first `article` tag, then the div with the most text
(`divs_sorted[0]`); `None` when the soup is `None` or nothing matches. -/
def find_content_container (opts : Options) (soup : Option (List Node)) : Option Node :=
  match soup with
  | none => none
  | some sp =>
    let c0 : Option Node :=
      if opts.content ≠ [] then
        match find_content_by_div_attr sp .id opts.content with
        | some c => some c
        | none => find_content_by_div_attr sp .cls opts.content
      else none
    let c1 :=
      match c0 with
      | some c => some c
      | none => find_content_by_div_attr sp .id opts.default_content_names
    let c2 :=
      match c1 with
      | some c => some c
      | none => find_content_by_div_attr sp .cls opts.default_content_names
    let c3 :=
      match c2 with
      | some c => some c
      | none => soupFind (fun n => n.tagIs "article") sp
    match c3 with
    | some c => some c
    | none =>
      match findAllList isDiv sp with
      | [] => none
      | divs => (pySortDescByTextLen divs).head?

/-- `MdScraper.extract_page_content` (lines 389-414): delegate to the
locator (the rest of the function only prints diagnostics). -/
def extract_page_content (opts : Options) (soup : Option (List Node)) : Option Node :=
  find_content_container opts soup

/-! ## Title extraction (source lines 363-387, `utils.clean_text` lines 68-85) -/

/-- `utils.clean_text`: empty input gives `""`; otherwise collapse whitespace
runs to one space, decode HTML entities, and strip the ends. -/
def clean_text (text : String) : String :=
  if text = "" then "" else pyStrip (pyUnescape (collapseWs text))

/-- `MdScraper.extract_page_title`: cleaned text of `soup.find('h1') or
soup.find('title')`, or the literal `"Webpage"` when neither exists (every
found bs4 Tag is truthy, so `or` selects the first non-`None` result). -/
def extract_page_title (soup : List Node) : String :=
  match soupFind (fun n => n.tagIs "h1") soup with
  | some e => clean_text e.getText
  | none =>
    match soupFind (fun n => n.tagIs "title") soup with
    | some e => clean_text e.getText
    | none => "Webpage"

/-! ## The link extractor (source lines 666-709) -/

/-- `content.find_all('a')`: all anchors below the content node, in
document order. -/
def anchorsOf (content : Node) : List Node :=
  findAllNode (fun n => n.tagIs "a") content

/-- The loop body of `content_to_url_list` over the collected anchors:
`anchor['href']` (raising `KeyError` when absent), the page name as the last
`/`-separated piece of the url path, the `fnmatch` exclusion test against
`exclude_pages or []`, and `site_root + url_path` for the survivors. -/
def urlListOf (opts : Options) (site_root : String) : List Node → Except PyErr (List String)
  | [] => .ok []
  | a :: rest =>
    match a.href with
    | none => .error .keyError
    | some url =>
      let url_path := urlPath url
      let page_name := (pySplitCh '/' url_path).getLastD ""
      let exclude_pages := opts.exclude_pages.getD []
      if exclude_pages.any (fun pat => fnmatchB page_name pat) then
        urlListOf opts site_root rest
      else
        (urlListOf opts site_root rest).map (fun l => (site_root ++ url_path) :: l)

/-- `MdScraper.content_to_url_list` (lines 666-709). -/
def content_to_url_list (opts : Options) (content : Node) (site_root : String) :
    Except PyErr (List String) :=
  urlListOf opts site_root (anchorsOf content)

/-- `MdScraper.process_site_url` (lines 769-785), up to the url list handed
to `process_url_list`: fetch (the `Option` argument is the fetch result),
extract the content container, and convert it to a url list.  When the
container is `None`, `content.find_all('a')` raises `AttributeError`. -/
def process_site_url (opts : Options) (fetchResult : Option (List Node)) (site_url : String) :
    Except PyErr (List String) :=
  match extract_page_content opts fetchResult with
  | none => .error .attributeError
  | some content => content_to_url_list opts content (siteRootOf site_url)

/-! ## Heading spacing (source lines 270-315) -/

/-- The level parsing of `add_newlines_before_headings`: `'all'` means 1-6;
otherwise `int(level.strip())` over the comma-separated pieces with falsy
pieces skipped, intersected with 1-6; a `ValueError` anywhere falls back to
1-6. -/
def parseHeadingLevels (heading_levels : String) : List Int :=
  if heading_levels = "all" then [1, 2, 3, 4, 5, 6]
  else
    match (((pySplitCh ',' heading_levels).map pyStrip).filter (fun piece => piece ≠ "")).mapM pyInt with
    | some ls => ls.filter (fun lvl => decide (1 ≤ lvl ∧ lvl ≤ 6))
    | none => [1, 2, 3, 4, 5, 6]

/-- `'#' * level + ' '`. -/
def headingSigil (lvl : Int) : String :=
  ⟨List.replicate lvl.toNat '#'⟩ ++ " "

/-- Does the line start a heading of one of the given levels
(`line.startswith('#' * level + ' ')` for some configured level)? -/
def isHeadingLine (levels : List Int) (line : String) : Bool :=
  levels.any (fun lvl => pyStartsWith (headingSigil lvl) line)

/-- The line loop of `add_newlines_before_headings`: every matching heading
line except the very first input line gets three empty lines inserted
immediately before it. -/
def processHeadingLines (levels : List Int) : List String → List String
  | [] => []
  | l0 :: rest =>
    l0 :: rest.flatMap (fun line =>
      if isHeadingLine levels line then ["", "", "", line] else [line])

/-- `MdScraper.add_newlines_before_headings` (lines 270-315), with the
`extra_heading_space` option value as first argument: parse the levels,
return the text unchanged when no level survives, else split into lines,
pad the matching headings, and rejoin. -/
def add_newlines_before_headings (heading_levels : String) (markdown : String) : String :=
  let levels := parseHeadingLevels heading_levels
  if levels = [] then markdown
  else joinCh '\n' (processHeadingLines levels (pySplitCh '\n' markdown))

/-! ## Settings-file processing (scraper lines 167-193, utils lines 124-152) -/

/-- A Python value stored in the options dictionary (the variants that occur
among `MdScraper`'s options). -/
inductive PyVal where
  | vStr : String → PyVal
  | vInt : Int → PyVal
  | vBool : Bool → PyVal
  | vNone : PyVal
  | vList : List String → PyVal
  deriving DecidableEq

/-- An options (or parsed-config) dictionary: insertion-ordered keys. -/
abbrev OptDict := List (String × PyVal)

/-- The top-level value obtained from a successfully parsed settings file. -/
inductive ConfigTop where
  | mapping : OptDict → ConfigTop
  | nonMapping : ConfigTop

/-- The outcome of the parsing collaborators in `load_config_file`:
YAML parse success, YAML failure but JSON success, or both failing. -/
inductive ParseOutcome where
  | yamlOk : ConfigTop → ParseOutcome
  | jsonOk : ConfigTop → ParseOutcome
  | bothFail : ParseOutcome

/-- `utils.load_config_file` (lines 124-152): return the parsed content, or
raise `ValueError` when the file parses as neither YAML nor JSON. -/
def load_config_file : ParseOutcome → Except PyErr ConfigTop
  | .yamlOk v => .ok v
  | .jsonOk v => .ok v
  | .bothFail => .error .valueError

/-- `self.options[key] = value` on the dictionary model. -/
def setKey (d : OptDict) (k : String) (v : PyVal) : OptDict :=
  d.map (fun pr => if pr.1 = k then (k, v) else pr)

/-- The merge loop of `process_config_file`: for each config key in order,
`self.options[key] = config[key]` only when `self.options[key] ==
default_options[key]`; a key absent from either dictionary raises
`KeyError`. -/
def mergeConfig (defaults : OptDict) : OptDict → OptDict → Except PyErr OptDict
  | opts, [] => .ok opts
  | opts, (k, v) :: rest =>
    match opts.lookup k, defaults.lookup k with
    | some ov, some dv =>
      mergeConfig defaults (if ov = dv then setKey opts k v else opts) rest
    | _, _ => .error .keyError

/-- `MdScraper.process_config_file` (lines 167-193): a parse failure
propagates (aborting the run); a non-mapping top level only prints a message
and keeps the current options; a mapping is merged over the still-default
fields. -/
def process_config_file (opts defaults : OptDict) (parsed : ParseOutcome) :
    Except PyErr OptDict :=
  match load_config_file parsed with
  | .error e => .error e
  | .ok (.mapping cfg) => mergeConfig defaults opts cfg
  | .ok .nonMapping => .ok opts

/-! ## Saving a single url (source lines 787-858) -/

/-- `MdScraper.extract_md_title` (lines 860-882): the first line starting
with `'# '`, with every occurrence of `'# '` removed. -/
def extract_md_title (markdown : String) : Option String :=
  (pySplitCh '\n' markdown).findSome? (fun line =>
    if pyStartsWith "# " line then some (pyRemoveAll "# " line) else none)

/-- `utils.get_last_url_part` (lines 22-41). -/
def get_last_url_part (url : String) : String :=
  (pySplitCh '/' (urlPath url)).getLastD ""

/-- A character `re.sub(r'[\\/*?:"<>|]', '_', ...)` replaces. -/
def badFilenameChar (c : Char) : Bool :=
  ['\\', '/', '*', '?', ':', '"', '<', '>', '|'].contains c

/-- `utils.sanitize_filename` (lines 87-98). -/
def sanitize_filename (filename : String) : String :=
  ⟨filename.data.map (fun c => if badFilenameChar c then '_' else c)⟩

/-- The filesystem seen by `process_single_url`: path/content pairs. -/
abbrev FileSys := List (String × String)

/-- `utils.save_markdown_to_file` (`open(output_file, 'w')` then write):
overwrite an existing file, create a fresh one otherwise. -/
def writeFileFS (fs : FileSys) (path content : String) : FileSys :=
  if (fs.lookup path).isSome then
    fs.map (fun pr => if pr.1 = path then (path, content) else pr)
  else fs ++ [(path, content)]

/-- `os.path.join` for the shapes used here. -/
def ospJoin (d f : String) : String :=
  if d = "" then f else d ++ "/" ++ f

/-- `MdScraper.process_single_url` (lines 787-858), with the fetched
markdown supplied as the `fetched` argument (the network collaborator):
resolve the output filename (`%TITLE` falls back to `%URL` when no markdown
title is found; both are sanitized and joined under `outdir`), then save —
the write is unconditional, there is no check for an existing file.
Returns the success flag and the new filesystem. -/
def process_single_url (opts : Options) (url : String) (output_file_arg : Option String)
    (fetched : Option String) (fs : FileSys) : Bool × FileSys :=
  let output_dir := opts.outdir
  let output_file :=
    match output_file_arg with
    | some s => if s = "" then opts.output else s
    | none => opts.output
  match fetched with
  | none => (false, fs)
  | some markdown =>
    let path :=
      if output_file = "%TITLE" ∨ output_file = "%URL" then
        let extracted :=
          if output_file = "%TITLE" then
            match extract_md_title markdown with
            | some t => if t = "" then get_last_url_part url else t
            | none => get_last_url_part url
          else get_last_url_part url
        ospJoin output_dir (sanitize_filename extracted ++ ".md")
      else ospJoin output_dir output_file
    (true, writeFileFS fs path markdown)

/-! ## Definitions following the specification text

These restate, in the claims' own words, what the corresponding source
functions are claimed to do; the theorems below compare them with the
translations above. -/

/-- Claim C1, step "an element whose id attribute exactly equals a name":
the first element of the document, in document order, with that id. -/
def firstElemWithId (soup : List Node) (name : String) : Option Node :=
  (findAllList (fun n => n.idAttr == some name) soup).head?

/-- Claim C1, step "an element whose space-separated class list contains
such a name". -/
def firstElemWithClass (soup : List Node) (name : String) : Option Node :=
  (findAllList (fun n => n.classes.contains name) soup).head?

/-- Claim C1: id search over the names in list order, then the class search. -/
def claimIdClassSearch (soup : List Node) (names : List String) : Option Node :=
  (names.findSome? (firstElemWithId soup)) <|> (names.findSome? (firstElemWithClass soup))

/-- The amended claim's id search, restricted to `div` elements. -/
def firstDivWithId (soup : List Node) (name : String) : Option Node :=
  (findAllList (fun n => isDiv n && n.idAttr == some name) soup).head?

/-- The amended claim's class search, restricted to `div` elements. -/
def firstDivWithClass (soup : List Node) (name : String) : Option Node :=
  (findAllList (fun n => isDiv n && n.classes.contains name) soup).head?

/-- The amended claim's id-then-class search over one name list. -/
def claimDivSearch (soup : List Node) (names : List String) : Option Node :=
  (names.findSome? (firstDivWithId soup)) <|> (names.findSome? (firstDivWithClass soup))

/-- Claim C1, step 4: "the div with the greatest rendered-text length, ties
broken by the first-encountered in document order". -/
def claimLargestDiv (soup : List Node) : Option Node :=
  (findAllList isDiv soup).foldl
    (fun best d =>
      match best with
      | none => some d
      | some b => if textLen b < textLen d then some d else some b)
    none

/-- Claim C1's cascade as literally written: steps 1 and 2 search arbitrary
elements (not only divs) by id then class. -/
def claimLocatorElems (opts : Options) (soup : List Node) : Option Node :=
  (if opts.content ≠ [] then claimIdClassSearch soup opts.content else none) <|>
    claimIdClassSearch soup opts.default_content_names <|>
    (findAllList (fun n => n.tagIs "article") soup).head? <|>
    claimLargestDiv soup

/-- The amended C1 cascade: as the claim, but steps 1 and 2 range over `div`
elements only. -/
def claimLocatorDivs (opts : Options) (soup : List Node) : Option Node :=
  (if opts.content ≠ [] then claimDivSearch soup opts.content else none) <|>
    claimDivSearch soup opts.default_content_names <|>
    (findAllList (fun n => n.tagIs "article") soup).head? <|>
    claimLargestDiv soup

/-- Claim C6: "the final path segment (the part after the last `/`, the
empty string for hrefs ending in `/`)". -/
def lastSegment (path : String) : String :=
  ⟨(path.data.reverse.takeWhile (fun c => c ≠ '/')).reverse⟩

/-- Claim C6's link extractor, as written: for each anchor href in document
order, keep `siteRoot + path` unless the final path segment matches an
exclusion glob; `none` when some anchor has no href. -/
def spec_extractLinks (excl : List String) (siteRoot : String) (content : Node) :
    Option (List String) :=
  ((anchorsOf content).mapM Node.href).map (fun hrefs =>
    hrefs.filterMap (fun u =>
      let p := urlPath u
      if excl.any (fun pat => fnmatchB (lastSegment p) pat) then none
      else some (siteRoot ++ p)))

/-! ## Structural predicates and helpers used by the C4 theorems -/

mutual

/-- Every anchor in the tree carries an `href` attribute. -/
def Node.hrefOk : Node → Bool
  | .text _ => true
  | .elem t _ _ h cs => (t != "a" || h.isSome) && hrefOkList cs

/-- `Node.hrefOk` over a child list. -/
def hrefOkList : List Node → Bool
  | [] => true
  | c :: cs => c.hrefOk && hrefOkList cs

end

mutual

/-- The pure rewriting performed by `Node.relink` on trees whose anchors all
have hrefs. -/
def Node.relinkPure (opts : Options) : Node → Node
  | .text s => .text s
  | .elem t i cl h cs =>
    .elem t i cl (if t == "a" then (h.map (get_relative_url_path opts)) else h)
      (relinkPureList opts cs)

/-- `Node.relinkPure` over a child list. -/
def relinkPureList (opts : Options) : List Node → List Node
  | [] => []
  | c :: cs => c.relinkPure opts :: relinkPureList opts cs

end

/-- The number of consecutive blank lines at the end of a line list (used to
state how many blank lines immediately precede a given line). -/
def blankSuffixLen (l : List String) : Nat :=
  (l.reverse.takeWhile (fun s => s = "")).length

/-- The number of blank lines in a line list. -/
def countBlankLines (lines : List String) : Nat :=
  lines.countP (fun s => s == "")

/-- The number of lines after the first one that match a configured heading
level (each of which receives three inserted blank lines). -/
def countPaddedTail (levels : List Int) : List String → Nat
  | [] => 0
  | _ :: rest => rest.countP (isHeadingLine levels)

/-- The shape of the line lists produced by the per-line loop of
`add_newlines_before_headings` on the non-first lines: each matching heading
is emitted behind exactly three fresh blank lines, every other line
verbatim. -/
inductive Chunked (levels : List Int) : List String → Prop
  | nil : Chunked levels []
  | plain (x : String) (rest : List String) :
      isHeadingLine levels x = false → Chunked levels rest → Chunked levels (x :: rest)
  | padded (x : String) (rest : List String) :
      isHeadingLine levels x = true → Chunked levels rest →
      Chunked levels ("" :: "" :: "" :: x :: rest)

/-- The edit sequence of `_fetch_content` (source lines 435-462) after the
content container is found: exclusion selectors, then optionally image
removal, then either link removal (`no_links`) or link relativization. -/
def editContent (opts : Options) (content : Node) : Except PyErr Node :=
  let c1 := process_exclude_selectors opts content
  let c2 := if opts.no_images then remove_images c1 else c1
  if opts.no_links then .ok (remove_links c2) else make_urls_relative opts c2


/-! ## Supporting lemmas -/

theorem collapseGo_cons_nl (n : Nat) (l : List Char) :
    collapseGo n ('\n' :: l) = collapseGo (n + 1) l := by
  simp [collapseGo]

theorem collapseGo_cons_other (n : Nat) (c : Char) (l : List Char) (hc : c ≠ '\n') :
    collapseGo n (c :: l) = emitRun n ++ c :: collapseGo 0 l := by
  simp [collapseGo, hc]

theorem collapseGo_peel (j n : Nat) (l : List Char) :
    collapseGo n (List.replicate j '\n' ++ l) = collapseGo (n + j) l := by
  induction j generalizing n with
  | zero => simp
  | succ k ih =>
    rw [List.replicate_succ, List.cons_append, collapseGo_cons_nl, ih]
    ring_nf

theorem emitRun_eq (k : Nat) : emitRun k = List.replicate (if 3 ≤ k then 2 else k) '\n' := rfl

theorem collapseGo_fix (l : List Char) :
    ∀ j, collapseGo 0 (collapseGo j l) = collapseGo j l := by
  induction l with
  | nil =>
    intro j
    show collapseGo 0 (emitRun j) = emitRun j
    rw [emitRun_eq, ← List.append_nil (List.replicate _ '\n'), collapseGo_peel, Nat.zero_add]
    by_cases h : 3 ≤ j <;> simp [collapseGo, emitRun_eq, h]
  | cons c m ih =>
    intro j
    by_cases hc : c = '\n'
    · subst hc
      rw [collapseGo_cons_nl]
      exact ih (j + 1)
    · rw [collapseGo_cons_other j c m hc, emitRun_eq, collapseGo_peel, Nat.zero_add,
        collapseGo_cons_other _ c _ hc, ih 0]
      congr 1
      by_cases h : 3 ≤ j <;> simp [emitRun_eq, h]

theorem isHeadingLine_empty (levels : List Int) : isHeadingLine levels "" = false := by
  unfold isHeadingLine
  rw [List.any_eq_false]
  intro lvl _
  unfold pyStartsWith headingSigil
  simp [String.data]

theorem chunked_flatMap (levels : List Int) (rest : List String) :
    Chunked levels (rest.flatMap (fun line =>
      if isHeadingLine levels line then ["", "", "", line] else [line])) := by
  induction rest with
  | nil => exact Chunked.nil
  | cons x r ih =>
    rw [List.flatMap_cons]
    by_cases hx : isHeadingLine levels x
    · simp only [hx, if_pos]
      exact Chunked.padded x _ hx ih
    · simp only [hx, if_neg, Bool.false_eq_true, not_false_iff]
      exact Chunked.plain x _ (by simp [hx]) ih

theorem chunked_pre_blanks (levels : List Int) (out : List String) (h : Chunked levels out) :
    ∀ pre line suf, out = pre ++ line :: suf → isHeadingLine levels line = true →
      ∃ p2, pre = p2 ++ ["", "", ""] := by
  induction h with
  | nil =>
    intro pre line suf heq _
    exact absurd heq (by simp)
  | plain x rest hx _ ih =>
    intro pre line suf heq hline
    match pre, heq with
    | [], heq =>
      simp at heq
      obtain ⟨h1, _⟩ := heq
      rw [← h1] at hline
      rw [hline] at hx
      exact absurd hx (by simp)
    | q :: pre2, heq =>
      simp at heq
      obtain ⟨_, h2⟩ := heq
      obtain ⟨p2, hp2⟩ := ih pre2 line suf h2 hline
      exact ⟨q :: p2, by simp [hp2]⟩
  | padded x rest hx _ ih =>
    intro pre line suf heq hline
    match pre, heq with
    | [], heq =>
      simp at heq
      obtain ⟨h1, _⟩ := heq
      rw [← h1, isHeadingLine_empty] at hline
      exact absurd hline (by simp)
    | [a], heq =>
      simp at heq
      obtain ⟨_, h1, _⟩ := heq
      rw [← h1, isHeadingLine_empty] at hline
      exact absurd hline (by simp)
    | [a, b], heq =>
      simp at heq
      obtain ⟨_, _, h1, _⟩ := heq
      rw [← h1, isHeadingLine_empty] at hline
      exact absurd hline (by simp)
    | [a, b, c], heq =>
      simp at heq
      obtain ⟨ha, hb, hc, _⟩ := heq
      subst ha
      subst hb
      subst hc
      exact ⟨[], rfl⟩
    | a :: b :: c :: d :: pre4, heq =>
      simp at heq
      obtain ⟨ha, hb, hc, hd, h4⟩ := heq
      obtain ⟨p2, hp2⟩ := ih pre4 line suf h4 hline
      exact ⟨a :: b :: c :: d :: p2, by simp [hp2]⟩

theorem countBlank_flatMap (levels : List Int) (rest : List String) :
    countBlankLines (rest.flatMap (fun line =>
      if isHeadingLine levels line then ["", "", "", line] else [line])) =
      countBlankLines rest + 3 * rest.countP (isHeadingLine levels) := by
  induction rest with
  | nil => rfl
  | cons x r ih =>
    rw [List.flatMap_cons]
    unfold countBlankLines at ih ⊢
    rw [List.countP_append, ih, List.countP_cons]
    by_cases hx : isHeadingLine levels x
    · simp [hx, List.countP_cons]
      omega
    · simp [hx, List.countP_cons]
      omega

theorem processHeadingLines_blanks (levels : List Int) (lines pre suf : List String) (line : String)
    (h : processHeadingLines levels lines = pre ++ line :: suf)
    (hl : isHeadingLine levels line = true) :
    pre = [] ∨ ∃ p2, pre = p2 ++ ["", "", ""] := by
  match lines, h with
  | [], h =>
    exact absurd h (by cases pre <;> simp [processHeadingLines])
  | l0 :: rest, h =>
    unfold processHeadingLines at h
    match pre, h with
    | [], h => exact Or.inl rfl
    | q :: pre2, h =>
      simp at h
      obtain ⟨_, h2⟩ := h
      obtain ⟨p2, hp⟩ :=
        chunked_pre_blanks levels _ (chunked_flatMap levels rest) pre2 line suf h2 hl
      exact Or.inr ⟨q :: p2, by simp [hp]⟩

theorem processHeadingLines_countBlank (levels : List Int) (lines : List String) :
    countBlankLines (processHeadingLines levels lines) =
      countBlankLines lines + 3 * countPaddedTail levels lines := by
  match lines with
  | [] => rfl
  | l0 :: rest =>
    unfold processHeadingLines countBlankLines
    rw [show countPaddedTail levels (l0 :: rest) = rest.countP (isHeadingLine levels) from rfl]
    rw [List.countP_cons, List.countP_cons]
    have := countBlank_flatMap levels rest
    unfold countBlankLines at this
    rw [this]
    omega

theorem isHeading23_eq (line : String) :
    isHeadingLine [2, 3] line = (pyStartsWith "## " line || pyStartsWith "### " line) := by
  have h2 : headingSigil 2 = "## " := rfl
  have h3 : headingSigil 3 = "### " := rfl
  simp [isHeadingLine, h2, h3]

theorem removeAllAux_length_le (pl : List Char) :
    ∀ (fuel : Nat) (l : List Char), (removeAllAux pl fuel l).length ≤ l.length := by
  intro fuel
  induction fuel with
  | zero => intro l; cases l <;> simp [removeAllAux]
  | succ f ih =>
    intro l
    cases l with
    | nil => simp [removeAllAux]
    | cons c rest =>
      rw [removeAllAux]
      by_cases hp : pl.isPrefixOf (c :: rest)
      · rw [if_pos hp]
        calc (removeAllAux pl f ((c :: rest).drop pl.length)).length
            ≤ ((c :: rest).drop pl.length).length := ih _
          _ ≤ (c :: rest).length := by simp [List.length_drop]
      · rw [if_neg hp]
        simpa using ih rest

theorem removeAllAux_of_no_occ (pl : List Char) :
    ∀ (fuel : Nat) (l : List Char), hasOcc pl l = false → removeAllAux pl fuel l = l := by
  intro fuel
  induction fuel with
  | zero => intro l _; cases l <;> simp [removeAllAux]
  | succ f ih =>
    intro l hno
    cases l with
    | nil => simp [removeAllAux]
    | cons c rest =>
      rw [hasOcc] at hno
      simp only [Bool.or_eq_false_iff] at hno
      rw [removeAllAux, if_neg (by simp [hno.1]), ih rest hno.2]

theorem isPrefixOf_length_le {pl l : List Char} (h : pl.isPrefixOf l = true) :
    pl.length ≤ l.length := by
  have := List.isPrefixOf_iff_prefix.mp h
  exact this.length_le

theorem removeAllAux_shorter (pl : List Char) (hpl : pl ≠ []) :
    ∀ (fuel : Nat) (l : List Char), l.length ≤ fuel → hasOcc pl l = true →
      (removeAllAux pl fuel l).length < l.length := by
  intro fuel
  induction fuel with
  | zero =>
    intro l hl hocc
    have hl2 : l = [] := by
      cases l with
      | nil => rfl
      | cons a as => simp at hl
    subst hl2
    rw [hasOcc] at hocc
    have hpl2 : pl = [] := by
      cases pl with
      | nil => rfl
      | cons a as => simp [List.isPrefixOf] at hocc
    exact absurd hpl2 hpl
  | succ f ih =>
    intro l hl hocc
    cases l with
    | nil =>
      rw [hasOcc] at hocc
      have hpl2 : pl = [] := by
        cases pl with
        | nil => rfl
        | cons a as => simp [List.isPrefixOf] at hocc
      exact absurd hpl2 hpl
    | cons c rest =>
      rw [removeAllAux]
      by_cases hp : pl.isPrefixOf (c :: rest)
      · rw [if_pos hp]
        have hlen : 1 ≤ pl.length := by
          cases pl with
          | nil => exact absurd rfl hpl
          | cons a as => simp
        have hple := isPrefixOf_length_le hp
        calc (removeAllAux pl f ((c :: rest).drop pl.length)).length
            ≤ ((c :: rest).drop pl.length).length := removeAllAux_length_le pl f _
          _ = (c :: rest).length - pl.length := by simp [List.length_drop]
          _ < (c :: rest).length := by simp at hple ⊢; omega
      · rw [if_neg hp]
        rw [hasOcc] at hocc
        simp only [Bool.or_eq_true] at hocc
        have hocc2 : hasOcc pl rest = true := by
          rcases hocc with h | h
          · exact absurd h hp
          · exact h
        have := ih rest (by simp at hl; omega) hocc2
        simpa using Nat.succ_lt_succ this

theorem data_ne_nil_of_ne_empty {p : String} (hp : p ≠ "") : p.data ≠ [] := by
  intro hd
  apply hp
  cases p with
  | mk d =>
    simp at hd
    rw [hd]

theorem pyRemoveAll_of_no_occ (p s : String) (h : hasOcc p.data s.data = false) :
    pyRemoveAll p s = s := by
  unfold pyRemoveAll
  by_cases hp : p = ""
  · simp [hp]
  · rw [if_neg hp, removeAllAux_of_no_occ p.data s.data.length s.data h]

theorem pyRemoveAll_length_lt (p s : String) (hp : p ≠ "") (h : hasOcc p.data s.data = true) :
    (pyRemoveAll p s).length < s.length := by
  unfold pyRemoveAll
  rw [if_neg hp]
  exact removeAllAux_shorter p.data (data_ne_nil_of_ne_empty hp) s.data.length s.data le_rfl h

theorem takeWhile_append_all {p : Char → Bool} :
    ∀ (l1 l2 : List Char), (∀ c ∈ l1, p c) →
      List.takeWhile p (l1 ++ l2) = l1 ++ List.takeWhile p l2 := by
  intro l1
  induction l1 with
  | nil => intro l2 _; simp
  | cons x xs ih =>
    intro l2 h
    have hx : p x := h x (by simp)
    simp only [List.cons_append, List.takeWhile_cons, hx, if_pos]
    rw [ih l2 (fun c hc => h c (by simp [hc]))]

theorem takeWhile_append_bad {p : Char → Bool} :
    ∀ (l1 l2 : List Char), (∃ c ∈ l1, ¬ p c) →
      List.takeWhile p (l1 ++ l2) = List.takeWhile p l1 := by
  intro l1
  induction l1 with
  | nil => intro l2 h; simp at h
  | cons x xs ih =>
    intro l2 h
    by_cases hx : p x
    · simp only [List.cons_append, List.takeWhile_cons, hx, if_pos]
      have h2 : ∃ c ∈ xs, ¬ p c := by
        rcases h with ⟨c, hc, hpc⟩
        rcases List.mem_cons.mp hc with rfl | hm
        · exact absurd hx hpc
        · exact ⟨c, hm, hpc⟩
      rw [ih l2 h2]
    · simp only [List.cons_append, List.takeWhile_cons]
      rw [if_neg (by simpa using hx), if_neg (by simpa using hx)]

theorem foldl_reset_eq (sep : Char) :
    ∀ (l r : List Char),
      l.foldl (fun acc c => if c = sep then [] else acc ++ [c]) r =
        if l.contains sep then (l.reverse.takeWhile (fun c => c ≠ sep)).reverse
        else r ++ l := by
  intro l
  induction l with
  | nil => intro r; simp
  | cons x xs ih =>
    intro r
    rw [List.foldl_cons]
    by_cases hx : x = sep
    · subst hx
      rw [if_pos rfl, ih []]
      have hcx : (x :: xs).contains x = true := by simp [List.contains_cons]
      by_cases hxs : xs.contains x
      · rw [if_pos hxs, if_pos hcx, List.reverse_cons,
          takeWhile_append_bad xs.reverse [x]
            ⟨x, List.mem_reverse.mpr (by simpa using hxs), by simp⟩]
      · rw [if_neg hxs, if_pos hcx, List.reverse_cons,
          takeWhile_append_all xs.reverse [x]
            (fun c hc => by
              simp only [ne_eq, decide_eq_true_eq]
              intro hceq
              subst hceq
              exact hxs (by simpa using List.mem_reverse.mp hc))]
        simp
    · rw [if_neg hx, ih (r ++ [x])]
      by_cases hxs : xs.contains sep
      · have hcx : (x :: xs).contains sep = true := by
          simp [List.contains_cons]
          right
          simpa using hxs
        rw [if_pos hxs, if_pos hcx, List.reverse_cons,
          takeWhile_append_bad xs.reverse [x]
            ⟨sep, List.mem_reverse.mpr (by simpa using hxs), by simp⟩]
      · have hcx : ¬ ((x :: xs).contains sep = true) := by
          simp [List.contains_cons]
          constructor
          · exact fun h => absurd h.symm hx
          · simpa using hxs
        rw [if_neg hxs, if_neg hcx]
        simp

theorem splitChAux_ne_nil (sep : Char) : ∀ (l acc : List Char), splitChAux sep acc l ≠ [] := by
  intro l
  induction l with
  | nil => intro acc; simp [splitChAux]
  | cons x xs ih =>
    intro acc
    rw [splitChAux]
    by_cases hx : x = sep
    · simp [hx]
    · simpa [hx] using ih (x :: acc)

theorem getLast?_cons_of_ne_nil {α : Type} (a : α) {l : List α} (h : l ≠ []) :
    (a :: l).getLast? = l.getLast? := by
  cases l with
  | nil => exact absurd rfl h
  | cons b m => simp [List.getLast?_cons_cons]

theorem splitChAux_getLast (sep : Char) :
    ∀ (l acc : List Char),
      (splitChAux sep acc l).getLast? =
        some (l.foldl (fun a c => if c = sep then [] else a ++ [c]) acc.reverse) := by
  intro l
  induction l with
  | nil => intro acc; simp [splitChAux]
  | cons x xs ih =>
    intro acc
    rw [splitChAux, List.foldl_cons]
    by_cases hx : x = sep
    · subst hx
      rw [if_pos rfl, if_pos rfl]
      rw [getLast?_cons_of_ne_nil _ (splitChAux_ne_nil x xs [])]
      simpa using ih []
    · rw [if_neg hx, if_neg hx, ih (x :: acc)]
      simp

theorem pageName_eq_lastSegment (s : String) :
    (pySplitCh '/' s).getLastD "" = lastSegment s := by
  unfold pySplitCh lastSegment
  rw [List.getLastD_eq_getLast?, List.getLast?_map, splitChAux_getLast '/' s.data []]
  rw [List.reverse_nil, foldl_reset_eq '/' s.data []]
  by_cases hc : s.data.contains '/'
  · rw [if_pos hc]
    rfl
  · rw [if_neg hc]
    have : List.takeWhile (fun c => c ≠ '/') s.data.reverse = s.data.reverse := by
      have := takeWhile_append_all (p := fun c => decide (c ≠ '/')) s.data.reverse []
        (fun c hcm => by
          simp only [ne_eq, decide_eq_true_eq]
          intro hceq
          subst hceq
          exact hc (by simpa using List.mem_reverse.mp hcm))
      simpa using this
    rw [this]
    simp

theorem urlListOf_eq_spec (opts : Options) (root : String) :
    ∀ (anchors : List Node), (∀ a ∈ anchors, (Node.href a).isSome = true) →
      ∃ hrefs, anchors.mapM Node.href = some hrefs ∧
        urlListOf opts root anchors = .ok (hrefs.filterMap (fun u =>
          if (opts.exclude_pages.getD []).any (fun pat => fnmatchB (lastSegment (urlPath u)) pat)
          then none else some (root ++ urlPath u))) := by
  intro anchors
  induction anchors with
  | nil => intro _; exact ⟨[], rfl, rfl⟩
  | cons a rest ih =>
    intro h
    have ha : (Node.href a).isSome = true := h a (by simp)
    obtain ⟨u, hu⟩ := Option.isSome_iff_exists.mp ha
    obtain ⟨hr, hmr, hur⟩ := ih (fun b hb => h b (by simp [hb]))
    refine ⟨u :: hr, ?_, ?_⟩
    · rw [List.mapM_cons, hu, hmr]
      rfl
    · rw [urlListOf]
      simp only [hu]
      rw [pageName_eq_lastSegment]
      by_cases hex :
          (opts.exclude_pages.getD []).any (fun pat => fnmatchB (lastSegment (urlPath u)) pat)
      · rw [if_pos hex, hur, List.filterMap_cons]
        simp only [hex, if_pos]
      · rw [if_neg hex, hur, List.filterMap_cons]
        simp only [hex]
        rfl

/-! ## The claims -/

/-- C7: the markdown newline-collapse step (replacing every run of 3 or more
consecutive newlines with exactly 2) is idempotent — applying
`collapseNewlines` to its own output returns that output unchanged. -/
theorem C7_collapse_idempotent (s : String) :
    collapseNewlines (collapseNewlines s) = collapseNewlines s := by
  unfold collapseNewlines
  congr 1
  exact collapseGo_fix s.data 0

/-- C2, counterexample to the claim as stated: with `extra_heading_space="2,3"`
and the input `"x\n\n## h"` (a heading already preceded by one blank line),
the output line `"## h"` is preceded by 4 blank lines, not exactly 3 — the
three inserted blank lines add to any blank lines already present. -/
theorem C2_heading_space_counterexample :
    add_newlines_before_headings "2,3" "x\n\n## h" = "x\n\n\n\n\n## h"
    ∧ pySplitCh '\n' (add_newlines_before_headings "2,3" "x\n\n## h") =
        ["x", "", "", "", "", "## h"]
    ∧ ["x", "", "", "", "", "## h"] = ["x", "", "", "", ""] ++ ["## h"]
    ∧ blankSuffixLen ["x", "", "", "", ""] = 4
    ∧ 4 ≠ 3 :=
  ⟨rfl, rfl, rfl, rfl, by decide⟩

/-- C2, amended: with `extra_heading_space="2,3"`, exactly three blank lines
are inserted immediately before every output line beginning `"## "` or
`"### "` other than the first line (so each such line is preceded by at
least 3 blank lines, more when the input already had blank lines there),
and no blank line is inserted anywhere else — in particular not before
`"# "` or `"#### "` lines, as the blank-line count grows by exactly 3 per
padded heading.  `"all"` selects levels 1-6, an unparseable level string
falls back to levels 1-6, and a level string whose parsed intersection with
1-6 is empty returns the input text unchanged. -/
theorem C2_heading_space_amended :
    parseHeadingLevels "all" = [1, 2, 3, 4, 5, 6]
    ∧ parseHeadingLevels "abc" = [1, 2, 3, 4, 5, 6]
    ∧ parseHeadingLevels "2,3" = [2, 3]
    ∧ (∀ md, add_newlines_before_headings "7,8" md = md)
    ∧ (∀ line, isHeadingLine [2, 3] line = (pyStartsWith "## " line || pyStartsWith "### " line))
    ∧ (∀ lines pre suf line,
        processHeadingLines [2, 3] lines = pre ++ line :: suf →
        isHeadingLine [2, 3] line = true →
        pre = [] ∨ ∃ p2, pre = p2 ++ ["", "", ""])
    ∧ (∀ lines, countBlankLines (processHeadingLines [2, 3] lines) =
        countBlankLines lines + 3 * countPaddedTail [2, 3] lines) :=
  ⟨rfl, by decide, by decide, fun _ => rfl, isHeading23_eq,
   fun lines pre suf line h hl => processHeadingLines_blanks [2, 3] lines pre suf line h hl,
   fun lines => processHeadingLines_countBlank [2, 3] lines⟩

/-- C2, witness: the amended theorem applied at concrete inputs — the no-op
for levels `"7,8"`, and the three blank lines before the `"## b"` line of
`processHeadingLines [2,3] ["a", "## b"]`. -/
theorem C2_heading_space_witness :
    add_newlines_before_headings "7,8" "x\n## y" = "x\n## y"
    ∧ (["a", "", "", ""] = [] ∨ ∃ p2, ["a", "", "", ""] = p2 ++ ["", "", ""]) :=
  ⟨C2_heading_space_amended.2.2.2.1 "x\n## y",
   C2_heading_space_amended.2.2.2.2.2.1 ["a", "## b"] ["a", "", "", ""] [] "## b" rfl rfl⟩

/-- C3, counterexample to the claim as stated: with
`root_url = "https://ex.com/docs"`, the anchor path
`"/en/docs/page.html"` does not start with the root path `"/docs"`, yet
`get_relative_url_path` rewrites it to `"/en/page.html"` — `str.replace`
removes every occurrence of the root path, not only a leading prefix, so
the href is not left unchanged. -/
theorem C3_relativize_counterexample :
    get_relative_url_path { defaultOptions with root_url := "https://ex.com/docs" }
        "https://ex.com/en/docs/page.html" = "/en/page.html"
    ∧ urlPath "https://ex.com/docs" = "/docs"
    ∧ urlPath "https://ex.com/en/docs/page.html" = "/en/docs/page.html"
    ∧ pyStartsWith "/docs" "/en/docs/page.html" = false
    ∧ "/en/page.html" ≠ "https://ex.com/en/docs/page.html" :=
  ⟨rfl, rfl, rfl, rfl, by decide⟩

/-- C3, amended: when `root_url` is set and has a nonempty path, link
relativization rewrites the href to the href's URL-path component with
every occurrence of the root path removed (anywhere in the path, not only
as a leading prefix), whenever at least one occurrence exists — the result
is then strictly shorter than the original path; when the root path does
not occur in the href's path at all, the href is left unchanged. -/
theorem C3_relativize_amended (opts : Options) (url : String)
    (hroot : opts.root_url ≠ "") (hrp : urlPath opts.root_url ≠ "") :
    (hasOcc (urlPath opts.root_url).data (urlPath url).data = true →
      get_relative_url_path opts url = pyRemoveAll (urlPath opts.root_url) (urlPath url)
      ∧ (pyRemoveAll (urlPath opts.root_url) (urlPath url)).length < (urlPath url).length)
    ∧ (hasOcc (urlPath opts.root_url).data (urlPath url).data = false →
      get_relative_url_path opts url = url) := by
  constructor
  · intro hocc
    have hlt := pyRemoveAll_length_lt (urlPath opts.root_url) (urlPath url) hrp hocc
    refine ⟨?_, hlt⟩
    unfold get_relative_url_path
    rw [if_pos hroot]
    rw [if_pos (by intro heq; rw [heq] at hlt; omega)]
  · intro hocc
    unfold get_relative_url_path
    rw [if_pos hroot]
    have heq := pyRemoveAll_of_no_occ (urlPath opts.root_url) (urlPath url) hocc
    rw [if_neg (by simp [heq])]

/-- C3, witness: the amended theorem applied at a root url with path
`"/docs"` and an href whose path starts with it. -/
theorem C3_relativize_witness :
    get_relative_url_path { defaultOptions with root_url := "https://ex.com/docs" }
        "https://ex.com/docs/page.html" = "/page.html" := by
  have h := (C3_relativize_amended
    { defaultOptions with root_url := "https://ex.com/docs" }
    "https://ex.com/docs/page.html" (by decide) (by decide)).1 rfl
  rw [h.1]
  rfl

/-- C5: the claim says a write to an existing output path receives a `_1`
(`_2`, ...) suffix so existing files are never overwritten, but
`process_single_url` derives the file name without consulting the
filesystem and saves unconditionally: processing two pages titled
`"# Test"` into `outdir="outs"` writes `outs/Test.md` both times, the
second write replaces the first file's content, and no `outs/Test_1.md` is
created.  (The suffix loop exists only in the superseded
`src/mdscraper.py` revision's `process_url_file`.) -/
theorem C5_collision_overwrite :
    process_single_url { defaultOptions with outdir := "outs" } "https://e.com/a" none
        (some "# Test\n\nbody one") [] = (true, [("outs/Test.md", "# Test\n\nbody one")])
    ∧ process_single_url { defaultOptions with outdir := "outs" } "https://e.com/b" none
        (some "# Test\n\nbody two") [("outs/Test.md", "# Test\n\nbody one")] =
        (true, [("outs/Test.md", "# Test\n\nbody two")])
    ∧ List.lookup "outs/Test_1.md" [("outs/Test.md", "# Test\n\nbody two")] = none
    ∧ List.lookup "outs/Test.md" [("outs/Test.md", "# Test\n\nbody two")] =
        some "# Test\n\nbody two" :=
  ⟨rfl, rfl, rfl, rfl⟩

/-- C6: `content_to_url_list` emits, in document order, `siteRoot + path`
for each anchor href whose final path segment matches no glob pattern in
`exclude_pages`, with no deduplication — it agrees with the specification's
link extractor (`spec_extractLinks`) on every content tree whose anchors
all carry hrefs; and on the claim's concrete example it returns exactly
`["https://example.com/page1.html"]`. -/
theorem C6_link_extractor :
    (∀ (opts : Options) (content : Node) (root : String),
      (∀ a ∈ anchorsOf content, (Node.href a).isSome = true) →
      ∃ l, content_to_url_list opts content root = .ok l ∧
        spec_extractLinks (opts.exclude_pages.getD []) root content = some l)
    ∧ content_to_url_list
        { defaultOptions with exclude_pages := some ["excluded-page.html", "ignore-this-page*"] }
        (Node.elem "body" none [] none
          [Node.elem "a" none [] (some "/page1.html") [.text "Page 1"],
           Node.elem "a" none [] (some "/excluded-page.html") [.text "Excluded"],
           Node.elem "a" none [] (some "/ignore-this-page-x.html") [.text "Ignored"]])
        "https://example.com" = .ok ["https://example.com/page1.html"] := by
  constructor
  · intro opts content root h
    obtain ⟨hrefs, hmr, hur⟩ := urlListOf_eq_spec opts root (anchorsOf content) h
    refine ⟨_, hur, ?_⟩
    unfold spec_extractLinks
    rw [hmr]
    rfl
  · rfl

/-- C6, witness: the general part of `C6_link_extractor` applied to a
single-anchor content tree. -/
theorem C6_link_extractor_witness :
    ∃ l, content_to_url_list defaultOptions
        (Node.elem "div" none [] none
          [Node.elem "a" none [] (some "/a.html") [Node.text "A"]])
        "https://e.com" = .ok l
      ∧ spec_extractLinks [] "https://e.com"
          (Node.elem "div" none [] none
            [Node.elem "a" none [] (some "/a.html") [Node.text "A"]]) = some l :=
  C6_link_extractor.1 defaultOptions
    (Node.elem "div" none [] none [Node.elem "a" none [] (some "/a.html") [Node.text "A"]])
    "https://e.com" (by decide)

/-- C9: the extracted page title is the cleaned text of the first `h1`
element if one exists, otherwise of the first `title` element, otherwise
the literal `"Webpage"` — extraction always produces a string. -/
theorem C9_title_extraction (soup : List Node) :
    (∀ h1, soupFind (fun n => n.tagIs "h1") soup = some h1 →
      extract_page_title soup = clean_text h1.getText)
    ∧ (soupFind (fun n => n.tagIs "h1") soup = none →
      ∀ t, soupFind (fun n => n.tagIs "title") soup = some t →
        extract_page_title soup = clean_text t.getText)
    ∧ (soupFind (fun n => n.tagIs "h1") soup = none →
      soupFind (fun n => n.tagIs "title") soup = none →
        extract_page_title soup = "Webpage") := by
  refine ⟨?_, ?_, ?_⟩
  · intro h1 hh1
    unfold extract_page_title
    rw [hh1]
  · intro hno t ht
    unfold extract_page_title
    rw [hno, ht]
  · intro hno hnt
    unfold extract_page_title
    rw [hno, hnt]

/-- C9, witness: the h1 branch of `C9_title_extraction` at a concrete
document, including the whitespace-collapsing clean-up. -/
theorem C9_title_extraction_witness :
    extract_page_title
      [Node.elem "html" none [] none
        [Node.elem "h1" none [] none [Node.text "Hello   World"]]] = "Hello World" := by
  have h := (C9_title_extraction
    [Node.elem "html" none [] none
      [Node.elem "h1" none [] none [Node.text "Hello   World"]]]).1
    (Node.elem "h1" none [] none [Node.text "Hello   World"]) rfl
  rw [h]
  rfl

/-- C10: in crawl mode, when the fetch fails (`None` soup) or no content
container is found, `process_site_url` hands `None` to
`content_to_url_list`, whose `None.find_all('a')` raises an unhandled
`AttributeError` instead of recording a failure; and an `<a>` element
without an `href` attribute makes `content_to_url_list` raise `KeyError`
rather than skip it. -/
theorem C10_site_crawl_errors :
    (∀ (opts : Options) (site_url : String),
      process_site_url opts none site_url = .error .attributeError)
    ∧ (∀ (opts : Options) (sp : List Node) (site_url : String),
      find_content_container opts (some sp) = none →
        process_site_url opts (some sp) site_url = .error .attributeError)
    ∧ content_to_url_list defaultOptions
        (Node.elem "div" none [] none [Node.elem "a" none [] none [Node.text "x"]])
        "https://example.com" = .error .keyError := by
  refine ⟨fun opts site_url => rfl, ?_, rfl⟩
  intro opts sp site_url h
  unfold process_site_url extract_page_content
  rw [h]

/-- C10, witness: a soup with no content container makes the crawl raise. -/
theorem C10_site_crawl_errors_witness :
    process_site_url defaultOptions (some [Node.text "nothing here"]) "https://e.com" =
      .error .attributeError :=
  C10_site_crawl_errors.2.1 defaultOptions [Node.text "nothing here"] "https://e.com" rfl

theorem firstDivWithId_eq (sp : List Node) (name : String) :
    soupFind (divAttrMatch .id name) sp = firstDivWithId sp name := rfl

theorem firstDivWithClass_eq (sp : List Node) (name : String) :
    soupFind (divAttrMatch .cls name) sp = firstDivWithClass sp name := rfl

theorem fcbda_id_eq (sp : List Node) :
    ∀ names, find_content_by_div_attr sp .id names = names.findSome? (firstDivWithId sp) := by
  intro names
  induction names with
  | nil => rfl
  | cons name rest ih =>
    rw [find_content_by_div_attr, List.findSome?_cons, firstDivWithId_eq]
    cases firstDivWithId sp name with
    | none => exact ih
    | some c => rfl

theorem fcbda_cls_eq (sp : List Node) :
    ∀ names, find_content_by_div_attr sp .cls names = names.findSome? (firstDivWithClass sp) := by
  intro names
  induction names with
  | nil => rfl
  | cons name rest ih =>
    rw [find_content_by_div_attr, List.findSome?_cons, firstDivWithClass_eq]
    cases firstDivWithClass sp name with
    | none => exact ih
    | some c => rfl

theorem head?_insertDesc (d : Node) (acc : List Node) :
    (insertDescByTextLen d acc).head? =
      some (match acc with
            | [] => d
            | x :: _ => if textLen x < textLen d then d else x) := by
  cases acc with
  | nil => rfl
  | cons x xs =>
    by_cases h : textLen x < textLen d <;> simp [insertDescByTextLen, h]

theorem head?_foldl_insert :
    ∀ (l acc : List Node),
      (l.foldl (fun acc d => insertDescByTextLen d acc) acc).head? =
        l.foldl
          (fun best d =>
            match best with
            | none => some d
            | some b => if textLen b < textLen d then some d else some b)
          acc.head? := by
  intro l
  induction l with
  | nil => intro acc; rfl
  | cons d rest ih =>
    intro acc
    rw [List.foldl_cons, List.foldl_cons, ih (insertDescByTextLen d acc), head?_insertDesc]
    cases acc with
    | nil => rfl
    | cons x xs => by_cases h : textLen x < textLen d <;> simp [h]

theorem largestDiv_eq (sp : List Node) :
    (match findAllList isDiv sp with
     | [] => (none : Option Node)
     | divs => (pySortDescByTextLen divs).head?) = claimLargestDiv sp := by
  unfold claimLargestDiv
  cases h : findAllList isDiv sp with
  | nil => rfl
  | cons d ds =>
    show (pySortDescByTextLen (d :: ds)).head? = _
    unfold pySortDescByTextLen
    rw [head?_foldl_insert]
    rfl

theorem orElse_eq_match (a b : Option Node) :
    (a <|> b) = match a with | some c => some c | none => b := by
  cases a <;> rfl

theorem find_content_container_eq_claim (opts : Options) (sp : List Node) :
    find_content_container opts (some sp) = claimLocatorDivs opts sp := by
  unfold find_content_container claimLocatorDivs claimDivSearch
  simp only [orElse_eq_match, fcbda_id_eq, fcbda_cls_eq, largestDiv_eq, soupFind]
  by_cases hc : opts.content ≠ []
  · cases opts.content.findSome? (firstDivWithId sp) with
    | some c => simp [hc]
    | none =>
      cases opts.content.findSome? (firstDivWithClass sp) with
      | some c => simp [hc]
      | none =>
        cases opts.default_content_names.findSome? (firstDivWithId sp) with
        | some c => simp [hc]
        | none =>
          cases opts.default_content_names.findSome? (firstDivWithClass sp) with
          | some c => simp [hc]
          | none =>
            cases (findAllList (fun n => n.tagIs "article") sp).head? with
            | some c => simp [hc]
            | none => simp [hc]
  · cases opts.default_content_names.findSome? (firstDivWithId sp) with
    | some c => simp [hc]
    | none =>
      cases opts.default_content_names.findSome? (firstDivWithClass sp) with
      | some c => simp [hc]
      | none =>
        cases (findAllList (fun n => n.tagIs "article") sp).head? with
        | some c => simp [hc]
        | none => simp [hc]

/-- C1, counterexample to the claim as stated: steps 1 and 2 of the cascade
search only `div` elements, not arbitrary elements — a document whose only
id-match is a `section` element (with no divs and no article) makes
`find_content_container` return `None`, while the cascade as claimed
(`claimLocatorElems`) would return the section. -/
theorem C1_locator_counterexample :
    find_content_container defaultOptions
        (some [Node.elem "section" (some "content") [] none [Node.text "hello"]]) = none
    ∧ claimLocatorElems defaultOptions
        [Node.elem "section" (some "content") [] none [Node.text "hello"]] =
        some (Node.elem "section" (some "content") [] none [Node.text "hello"])
    ∧ (none : Option Node) ≠
        some (Node.elem "section" (some "content") [] none [Node.text "hello"]) :=
  ⟨rfl, rfl, by simp⟩

/-- C1, amended: for every parsed document the content locator returns the
first match of the cascade (1) a `div` whose id equals a custom content
name, names tried in list order, then a `div` whose class list contains
such a name; (2) the same div-id-then-div-class search over the fixed
default list; (3) the first `article` element in document order; (4) the
`div` with the greatest text length, ties broken by first-encountered
(Python's stable descending sort); if nothing matches (in particular when
there are no divs) the result is `None`, as it is for a failed fetch.  A
div with class `content` is selected in preference to an `article`. -/
theorem C1_locator_amended :
    (∀ (opts : Options) (sp : List Node),
      find_content_container opts (some sp) = claimLocatorDivs opts sp)
    ∧ (∀ opts : Options, find_content_container opts none = none)
    ∧ find_content_container defaultOptions
        (some [Node.elem "div" none ["content"] none [Node.text "hi"],
               Node.elem "article" none [] none [Node.text "yo"]]) =
        some (Node.elem "div" none ["content"] none [Node.text "hi"]) :=
  ⟨find_content_container_eq_claim, fun _ => rfl, rfl⟩

theorem lookup_setKey_ne (d : OptDict) (k k2 : String) (v : PyVal) (h : k ≠ k2) :
    (setKey d k2 v).lookup k = d.lookup k := by
  induction d with
  | nil => rfl
  | cons pr rest ih =>
    unfold setKey
    rw [List.map_cons]
    by_cases hp : pr.1 = k2
    · rw [if_pos hp]
      have hk : (k == k2) = false := by simp [h]
      rw [List.lookup_cons, List.lookup_cons, hk]
      have hk2 : (k == pr.1) = false := by simp [hp, h]
      rw [hk2]
      exact ih
    · rw [if_neg hp]
      rw [List.lookup_cons, List.lookup_cons]
      cases hke : k == pr.1
      · exact ih
      · rfl

theorem lookup_setKey_self (d : OptDict) (k2 : String) (v : PyVal) :
    (setKey d k2 v).lookup k2 = if (d.lookup k2).isSome then some v else none := by
  induction d with
  | nil => rfl
  | cons pr rest ih =>
    unfold setKey
    rw [List.map_cons]
    by_cases hp : pr.1 = k2
    · rw [if_pos hp]
      rw [List.lookup_cons, List.lookup_cons]
      have hk : (k2 == k2) = true := by simp
      rw [hk]
      have hk2 : (k2 == pr.1) = true := by simp [hp]
      rw [hk2]
      simp
    · rw [if_neg hp]
      rw [List.lookup_cons, List.lookup_cons]
      have hk : (k2 == pr.1) = false := by simp [hp]; exact fun he => hp he.symm
      rw [hk]
      exact ih

theorem lookup_setKey_isSome (d : OptDict) (k k2 : String) (v : PyVal) :
    ((setKey d k2 v).lookup k).isSome = (d.lookup k).isSome := by
  by_cases h : k = k2
  · subst h
    rw [lookup_setKey_self]
    cases hd : (d.lookup k).isSome <;> simp [hd]
  · rw [lookup_setKey_ne d k k2 v h]

theorem mergeConfig_spec (defaults : OptDict) :
    ∀ (cfg opts : OptDict),
      (cfg.map Prod.fst).Nodup →
      (∀ kv ∈ cfg, (opts.lookup kv.1).isSome = true ∧ (defaults.lookup kv.1).isSome = true) →
      ∃ res, mergeConfig defaults opts cfg = .ok res
        ∧ (∀ k v, (k, v) ∈ cfg →
            res.lookup k = if opts.lookup k = defaults.lookup k then some v else opts.lookup k)
        ∧ (∀ k, k ∉ cfg.map Prod.fst → res.lookup k = opts.lookup k) := by
  intro cfg
  induction cfg with
  | nil =>
    intro opts _ _
    exact ⟨opts, rfl, fun k v hv => absurd hv (by simp), fun k _ => rfl⟩
  | cons kv rest ih =>
    intro opts hnodup hkeys
    obtain ⟨k, v⟩ := kv
    obtain ⟨hok, hdk⟩ := hkeys (k, v) (by simp)
    obtain ⟨ov, hov⟩ := Option.isSome_iff_exists.mp hok
    obtain ⟨dv, hdv⟩ := Option.isSome_iff_exists.mp hdk
    have hknotin : k ∉ rest.map Prod.fst := by
      have := hnodup
      rw [List.map_cons] at this
      exact (List.nodup_cons.mp this).1
    have hnodup2 : (rest.map Prod.fst).Nodup := by
      rw [List.map_cons] at hnodup
      exact (List.nodup_cons.mp hnodup).2
    set opts2 := if ov = dv then setKey opts k v else opts with hopts2
    have hkeys2 : ∀ kv2 ∈ rest, (opts2.lookup kv2.1).isSome = true ∧
        (defaults.lookup kv2.1).isSome = true := by
      intro kv2 hm
      obtain ⟨h1, h2⟩ := hkeys kv2 (by simp [hm])
      refine ⟨?_, h2⟩
      rw [hopts2]
      by_cases hc : ov = dv
      · rw [if_pos hc, lookup_setKey_isSome]
        exact h1
      · rw [if_neg hc]
        exact h1
    obtain ⟨res, hmerge, hin, hnot⟩ := ih opts2 hnodup2 hkeys2
    have hopts2_ne : ∀ k2, k2 ≠ k → opts2.lookup k2 = opts.lookup k2 := by
      intro k2 hne
      rw [hopts2]
      by_cases hc : ov = dv
      · rw [if_pos hc, lookup_setKey_ne opts k2 k v hne]
      · rw [if_neg hc]
    refine ⟨res, ?_, ?_, ?_⟩
    · rw [mergeConfig, hov, hdv]
      exact hmerge
    · intro k2 v2 hm
      rcases List.mem_cons.mp hm with heq | hm2
      · injection heq with hk2 hv2
        subst hk2
        subst hv2
        rw [hnot k2 hknotin, hopts2]
        rw [hov, hdv]
        by_cases hc : ov = dv
        · rw [if_pos hc, if_pos (by rw [hc]), lookup_setKey_self, hov]
          rfl
        · rw [if_neg hc, if_neg (by intro hsome; exact hc (Option.some.inj hsome))]
          exact hov
      · have hne : k2 ≠ k := by
          intro heq
          subst heq
          exact hknotin (List.mem_map.mpr ⟨(k2, v2), hm2, rfl⟩)
        rw [hin k2 v2 hm2, hopts2_ne k2 hne]
    · intro k2 hnm
      have hne : k2 ≠ k := by
        intro heq
        subst heq
        exact hnm (by simp)
      have hnm2 : k2 ∉ rest.map Prod.fst := fun hmm => hnm (by simp [hmm])
      rw [hnot k2 hnm2, hopts2_ne k2 hne]

/-- C8: loading a settings file overrides only the option fields still equal
to their default value (explicit flags keep precedence); a file that parses
(as YAML, or as JSON after YAML fails) but whose top-level value is not a
mapping causes only a printed message, the run proceeding with the current
options unchanged; a file that parses as neither YAML nor JSON raises
`ValueError`, aborting the run. -/
theorem C8_config_file :
    (∀ (opts defaults cfg : OptDict) (po : ParseOutcome),
      (po = .yamlOk (.mapping cfg) ∨ po = .jsonOk (.mapping cfg)) →
      (cfg.map Prod.fst).Nodup →
      (∀ kv ∈ cfg, (opts.lookup kv.1).isSome = true ∧ (defaults.lookup kv.1).isSome = true) →
      ∃ res, process_config_file opts defaults po = .ok res
        ∧ (∀ k v, (k, v) ∈ cfg →
            res.lookup k = if opts.lookup k = defaults.lookup k then some v else opts.lookup k)
        ∧ (∀ k, k ∉ cfg.map Prod.fst → res.lookup k = opts.lookup k))
    ∧ (∀ opts defaults : OptDict,
        process_config_file opts defaults (.yamlOk .nonMapping) = .ok opts)
    ∧ (∀ opts defaults : OptDict,
        process_config_file opts defaults (.jsonOk .nonMapping) = .ok opts)
    ∧ (∀ opts defaults : OptDict,
        process_config_file opts defaults .bothFail = .error .valueError) := by
  refine ⟨?_, fun _ _ => rfl, fun _ _ => rfl, fun _ _ => rfl⟩
  intro opts defaults cfg po hpo hnodup hkeys
  obtain ⟨res, hmerge, hin, hnot⟩ := mergeConfig_spec defaults cfg opts hnodup hkeys
  refine ⟨res, ?_, hin, hnot⟩
  rcases hpo with rfl | rfl
  · exact hmerge
  · exact hmerge

/-- C8, witness: a config mapping `{no_images: False, outdir: "docs"}`
applied over options where `no_images` was explicitly set to `True` (no
longer its default `False`) and `outdir` is still the default `""`: only
`outdir` is overridden. -/
theorem C8_config_file_witness :
    ∃ res, process_config_file
        [("no_images", PyVal.vBool true), ("outdir", PyVal.vStr "")]
        [("no_images", PyVal.vBool false), ("outdir", PyVal.vStr "")]
        (.yamlOk (.mapping [("no_images", PyVal.vBool false), ("outdir", PyVal.vStr "docs")])) =
        .ok res
      ∧ res.lookup "no_images" = some (PyVal.vBool true)
      ∧ res.lookup "outdir" = some (PyVal.vStr "docs") := by
  obtain ⟨res, hok, hin, _⟩ := C8_config_file.1
    [("no_images", PyVal.vBool true), ("outdir", PyVal.vStr "")]
    [("no_images", PyVal.vBool false), ("outdir", PyVal.vStr "")]
    [("no_images", PyVal.vBool false), ("outdir", PyVal.vStr "docs")]
    (.yamlOk (.mapping [("no_images", PyVal.vBool false), ("outdir", PyVal.vStr "docs")]))
    (Or.inl rfl) (by decide) (by decide)
  refine ⟨res, hok, ?_, ?_⟩
  · have h := hin "no_images" (PyVal.vBool false) (by simp)
    rw [h]
    rfl
  · have h := hin "outdir" (PyVal.vStr "docs") (by simp)
    rw [h]
    rfl

theorem relinkPure_tagIs (opts : Options) (n : Node) (t : String) :
    (n.relinkPure opts).tagIs t = n.tagIs t := by
  cases n <;> rfl

mutual

theorem relinkPure_getText (opts : Options) :
    ∀ n : Node, (n.relinkPure opts).getText = n.getText
  | .text _ => rfl
  | .elem t i cl h cs => by
    show getTextList (relinkPureList opts cs) = getTextList cs
    exact relinkPureList_getText opts cs

theorem relinkPureList_getText (opts : Options) :
    ∀ cs : List Node, getTextList (relinkPureList opts cs) = getTextList cs
  | [] => rfl
  | c :: cs => by
    show (c.relinkPure opts).getText ++ getTextList (relinkPureList opts cs) =
      c.getText ++ getTextList cs
    rw [relinkPure_getText opts c, relinkPureList_getText opts cs]

end

mutual

theorem relinkPure_allBlank (opts : Options) :
    ∀ n : Node, (n.relinkPure opts).allBlank = n.allBlank
  | .text _ => rfl
  | .elem t i cl h cs => by
    show allBlankList (relinkPureList opts cs) = allBlankList cs
    exact relinkPureList_allBlank opts cs

theorem relinkPureList_allBlank (opts : Options) :
    ∀ cs : List Node, allBlankList (relinkPureList opts cs) = allBlankList cs
  | [] => rfl
  | c :: cs => by
    show ((c.relinkPure opts).allBlank && allBlankList (relinkPureList opts cs)) = _
    rw [relinkPure_allBlank opts c, relinkPureList_allBlank opts cs]
    rfl

end

mutual

theorem relink_of_hrefOk (opts : Options) :
    ∀ n : Node, n.hrefOk = true → n.relink opts = .ok (n.relinkPure opts)
  | .text _, _ => rfl
  | .elem t i cl h cs, hok => by
    rw [Node.hrefOk, Bool.and_eq_true] at hok
    rw [Node.relink, relinkList_of_hrefOk opts cs hok.2]
    show (if (t == "a") = true then _ else _) = _
    by_cases ht : (t == "a") = true
    · have hs : h.isSome = true := by
        have h1 := hok.1
        rw [bne] at h1
        rw [ht] at h1
        simpa using h1
      obtain ⟨u, hu⟩ := Option.isSome_iff_exists.mp hs
      subst hu
      rw [if_pos ht]
      show Except.ok (Node.elem t i cl (some (get_relative_url_path opts u)) (relinkPureList opts cs)) = _
      rw [Node.relinkPure, if_pos ht]
      rfl
    · rw [if_neg ht]
      rw [Node.relinkPure, if_neg ht]

theorem relinkList_of_hrefOk (opts : Options) :
    ∀ cs : List Node, hrefOkList cs = true →
      relinkList opts cs = .ok (relinkPureList opts cs)
  | [], _ => rfl
  | c :: cs, hok => by
    rw [hrefOkList, Bool.and_eq_true] at hok
    rw [relinkList, relink_of_hrefOk opts c hok.1, relinkList_of_hrefOk opts cs hok.2]
    rfl

end

mutual

theorem removeImgs_relinkPure (opts : Options) :
    ∀ n : Node, (n.relinkPure opts).removeImgs = (n.removeImgs).relinkPure opts
  | .text _ => rfl
  | .elem t i cl h cs => by
    show Node.elem t i cl _ (removeImgsList (relinkPureList opts cs)) = _
    rw [removeImgsList_relinkPureList opts cs]
    rfl

theorem removeImgsList_relinkPureList (opts : Options) :
    ∀ cs : List Node, removeImgsList (relinkPureList opts cs) = relinkPureList opts (removeImgsList cs)
  | [] => rfl
  | c :: cs => by
    show (if (c.relinkPure opts).tagIs "img" then _ else _) = _
    rw [relinkPure_tagIs]
    by_cases hc : c.tagIs "img"
    · rw [if_pos hc]
      show removeImgsList (relinkPureList opts cs) = relinkPureList opts (removeImgsList (c :: cs))
      rw [removeImgsList, if_pos hc]
      exact removeImgsList_relinkPureList opts cs
    · rw [if_neg hc]
      show (c.relinkPure opts).removeImgs :: removeImgsList (relinkPureList opts cs) = _
      rw [removeImgs_relinkPure opts c, removeImgsList_relinkPureList opts cs]
      show _ = relinkPureList opts (removeImgsList (c :: cs))
      rw [removeImgsList, if_neg hc]
      rfl

end

mutual

theorem removeEmptyPs_relinkPure (opts : Options) :
    ∀ n : Node, (n.relinkPure opts).removeEmptyPs = (n.removeEmptyPs).relinkPure opts
  | .text _ => rfl
  | .elem t i cl h cs => by
    show Node.elem t i cl _ (removeEmptyPsList (relinkPureList opts cs)) = _
    rw [removeEmptyPsList_relinkPureList opts cs]
    rfl

theorem removeEmptyPsList_relinkPureList (opts : Options) :
    ∀ cs : List Node,
      removeEmptyPsList (relinkPureList opts cs) = relinkPureList opts (removeEmptyPsList cs)
  | [] => rfl
  | c :: cs => by
    show (if (c.relinkPure opts).tagIs "p" && (c.relinkPure opts).allBlank then _ else _) = _
    rw [relinkPure_tagIs, relinkPure_allBlank]
    by_cases hc : (c.tagIs "p" && c.allBlank) = true
    · rw [if_pos hc]
      show removeEmptyPsList (relinkPureList opts cs) = relinkPureList opts (removeEmptyPsList (c :: cs))
      rw [removeEmptyPsList, if_pos hc]
      exact removeEmptyPsList_relinkPureList opts cs
    · rw [if_neg hc]
      show (c.relinkPure opts).removeEmptyPs :: removeEmptyPsList (relinkPureList opts cs) = _
      rw [removeEmptyPs_relinkPure opts c, removeEmptyPsList_relinkPureList opts cs]
      show _ = relinkPureList opts (removeEmptyPsList (c :: cs))
      rw [removeEmptyPsList, if_neg hc]
      rfl

end

mutual

theorem removeImgs_hrefOk :
    ∀ n : Node, n.hrefOk = true → (n.removeImgs).hrefOk = true
  | .text _, h => h
  | .elem t i cl h cs, hok => by
    rw [Node.hrefOk, Bool.and_eq_true] at hok
    show Node.hrefOk (.elem t i cl h (removeImgsList cs)) = true
    rw [Node.hrefOk, Bool.and_eq_true]
    exact ⟨hok.1, removeImgsList_hrefOk cs hok.2⟩

theorem removeImgsList_hrefOk :
    ∀ cs : List Node, hrefOkList cs = true → hrefOkList (removeImgsList cs) = true
  | [], h => h
  | c :: cs, hok => by
    rw [hrefOkList, Bool.and_eq_true] at hok
    rw [removeImgsList]
    by_cases hc : c.tagIs "img"
    · rw [if_pos hc]
      exact removeImgsList_hrefOk cs hok.2
    · rw [if_neg hc, hrefOkList, Bool.and_eq_true]
      exact ⟨removeImgs_hrefOk c hok.1, removeImgsList_hrefOk cs hok.2⟩

end

mutual

theorem removeEmptyPs_hrefOk :
    ∀ n : Node, n.hrefOk = true → (n.removeEmptyPs).hrefOk = true
  | .text _, h => h
  | .elem t i cl h cs, hok => by
    rw [Node.hrefOk, Bool.and_eq_true] at hok
    show Node.hrefOk (.elem t i cl h (removeEmptyPsList cs)) = true
    rw [Node.hrefOk, Bool.and_eq_true]
    exact ⟨hok.1, removeEmptyPsList_hrefOk cs hok.2⟩

theorem removeEmptyPsList_hrefOk :
    ∀ cs : List Node, hrefOkList cs = true → hrefOkList (removeEmptyPsList cs) = true
  | [], h => h
  | c :: cs, hok => by
    rw [hrefOkList, Bool.and_eq_true] at hok
    rw [removeEmptyPsList]
    by_cases hc : (c.tagIs "p" && c.allBlank) = true
    · rw [if_pos hc]
      exact removeEmptyPsList_hrefOk cs hok.2
    · rw [if_neg hc, hrefOkList, Bool.and_eq_true]
      exact ⟨removeEmptyPs_hrefOk c hok.1, removeEmptyPsList_hrefOk cs hok.2⟩

end

/-- C4, counterexample to the claim as stated: `excludeSelectors` (with the
selector `a`) and `removeLinks` do not commute — excluding first drops the
anchor together with its text, while removing links first keeps the text as
a plain string that the selector can no longer match. -/
theorem C4_commute_counterexample :
    process_exclude_selectors
        { defaultOptions with exclude_selectors := some [Selector.tagSel "a"] }
        (remove_links
          (Node.elem "div" none [] none
            [Node.elem "a" none [] (some "u") [Node.text "hi"]])) =
        Node.elem "div" none [] none [Node.text "hi"]
    ∧ remove_links
        (process_exclude_selectors
          { defaultOptions with exclude_selectors := some [Selector.tagSel "a"] }
          (Node.elem "div" none [] none
            [Node.elem "a" none [] (some "u") [Node.text "hi"]])) =
        Node.elem "div" none [] none []
    ∧ Node.elem "div" none [] none [Node.text "hi"] ≠ Node.elem "div" none [] none [] :=
  ⟨rfl, rfl, by simp⟩

/-- C4, amended: among the composable content-editor pairs, `removeImages`
and `relativizeLinks` commute on every content tree whose anchors all carry
an `href` (without that condition `relativizeLinks` raises `KeyError`);
`removeLinks` and `relativizeLinks` are never composed because `no_links`
takes precedence, under which the edit pipeline cannot fail; the remaining
pairs need not commute (see the counterexample for
`excludeSelectors`/`removeLinks`). -/
theorem C4_commute_amended :
    (∀ (opts : Options) (content : Node), content.hrefOk = true →
      make_urls_relative opts (remove_images content) =
        (make_urls_relative opts content).map remove_images)
    ∧ (∀ (opts : Options) (content : Node), opts.no_links = true →
      editContent opts content = .ok (remove_links (if opts.no_images
        then remove_images (process_exclude_selectors opts content)
        else process_exclude_selectors opts content))) := by
  constructor
  · intro opts content hok
    unfold make_urls_relative
    by_cases hr : opts.root_url ≠ ""
    · rw [if_pos hr, if_pos hr]
      cases content with
      | text s => rfl
      | elem t i cl h cs =>
        have hcs : hrefOkList cs = true := by
          rw [Node.hrefOk, Bool.and_eq_true] at hok
          exact hok.2
        have hL : hrefOkList (removeEmptyPsList (removeImgsList cs)) = true :=
          removeEmptyPsList_hrefOk _ (removeImgsList_hrefOk _ hcs)
        show (relinkList opts (removeEmptyPsList (removeImgsList cs))).map _ =
          Except.map remove_images ((relinkList opts cs).map _)
        rw [relinkList_of_hrefOk opts _ hL, relinkList_of_hrefOk opts cs hcs]
        show Except.ok
            (Node.elem t i cl h (relinkPureList opts (removeEmptyPsList (removeImgsList cs)))) =
          Except.ok
            (remove_images (Node.elem t i cl h (relinkPureList opts cs)))
        have hinner :
            removeEmptyPsList (removeImgsList (relinkPureList opts cs)) =
              relinkPureList opts (removeEmptyPsList (removeImgsList cs)) := by
          rw [removeImgsList_relinkPureList opts cs,
            removeEmptyPsList_relinkPureList opts (removeImgsList cs)]
        show _ = Except.ok
            (Node.elem t i cl h (removeEmptyPsList (removeImgsList (relinkPureList opts cs))))
        rw [hinner]
    · rw [if_neg hr, if_neg hr]
      rfl
  · intro opts content hnl
    unfold editContent
    rw [if_pos hnl]

/-- C4, witness: the commuting pair applied at a concrete content tree with
an href-carrying anchor inside an image-bearing paragraph. -/
theorem C4_commute_witness :
    make_urls_relative { defaultOptions with root_url := "https://e.com/base" }
        (remove_images
          (Node.elem "div" none [] none
            [Node.elem "p" none [] none [Node.elem "img" none [] none []],
             Node.elem "a" none [] (some "/base/x.html") [Node.text "x"]])) =
      Except.map remove_images
        (make_urls_relative { defaultOptions with root_url := "https://e.com/base" }
          (Node.elem "div" none [] none
            [Node.elem "p" none [] none [Node.elem "img" none [] none []],
             Node.elem "a" none [] (some "/base/x.html") [Node.text "x"]])) :=
  C4_commute_amended.1 { defaultOptions with root_url := "https://e.com/base" }
    (Node.elem "div" none [] none
      [Node.elem "p" none [] none [Node.elem "img" none [] none []],
       Node.elem "a" none [] (some "/base/x.html") [Node.text "x"]]) rfl

end Mdscraper
